import Mathlib

/-!
Verification of the curve interpolation and derating engine of the
`interpolated_curve_plotter` repository.

The numerical core lives in `src/plotting.py` (`get_curve_data`,
`find_parabola_intersection`, `interpolate_curve`) and in
`src/main.py` (`_get_standard_frequency` and the power-limit /
reduced-speed derating loops inside `PlottingFrame.plot_curves`).

Modelling conventions:
- Python / numpy floating point values are modelled as exact rationals.
  The only IEEE behaviour the engine relies on is division by zero
  producing `inf` / `-inf` / `nan` (which the solver special-cases), so
  arithmetic that can meet those values is carried out in `ERat`,
  rationals extended with `inf`, `-inf` and `nan` with IEEE-style
  propagation and comparison rules.
- `scipy.interpolate.interp1d(x, y, kind=slinear, fill_value=extrapolate)`
  is the piecewise-linear interpolant over the points sorted by `x`,
  extending the end segments linearly; its constructor raises `ValueError`
  when `x` has fewer than 2 entries or duplicate entries.  `interp1dOk`
  models the constructor succeeding, `interp1dEval` models evaluation.
- `scipy.optimize.brentq` is modelled by an arbitrary function `rf`
  passed as a parameter; a bracketing root finder is only guaranteed to
  return a point inside the bracket, which is the hypothesis the theorems
  use.  `brentqModel` is one concrete instance used for evaluation: like
  `brentq` it returns an endpoint whose residual is exactly zero
  (scipy returns `xpre` / `xcur` immediately when `f` vanishes there),
  and otherwise some interior point of the bracket.
- Exceptions escaping a Python function are modelled by `Except.error ()`;
  value-level absence (`return None`) by an `Option` inside `Except.ok`.
-/

/-- Python `min(array)` over a numpy array (`0` stands for the
error raised on an empty array; all uses are on nonempty arrays). -/
def pyMin : List ℚ → ℚ
  | [] => 0
  | x :: xs => xs.foldl min x

/-- Python `max(array)` over a numpy array. -/
def pyMax : List ℚ → ℚ
  | [] => 0
  | x :: xs => xs.foldl max x

/-- numpy `array.mean()` (`0` stands for the `nan` produced on an empty
array; no claim depends on that value). -/
def pyMean (l : List ℚ) : ℚ := l.sum / l.length

/-- numpy `linspace(a, b, n)`: `n` evenly spaced points from `a` to `b`
inclusive. -/
def linspace (a b : ℚ) (n : ℕ) : List ℚ :=
  (List.range n).map (fun (j : ℕ) => a + (b - a) * (j : ℚ) / ((n - 1 : ℕ) : ℚ))

/-- Rationals extended with the IEEE special values `inf`, `-inf`, `nan`:
the value domain of the Python float expressions that can divide by zero
(`k = h_lower / q_lower**2` in `interpolate_curve` and the residual
arithmetic in `find_parabola_intersection`). -/
inductive ERat where
  | fin : ℚ → ERat
  | inf : ERat
  | ninf : ERat
  | nan : ERat
deriving DecidableEq

namespace ERat

/-- IEEE multiplication on `ERat`. -/
def mul : ERat → ERat → ERat
  | fin a, fin b => fin (a * b)
  | fin a, inf => if 0 < a then inf else if a < 0 then ninf else nan
  | fin a, ninf => if 0 < a then ninf else if a < 0 then inf else nan
  | inf, fin b => if 0 < b then inf else if b < 0 then ninf else nan
  | ninf, fin b => if 0 < b then ninf else if b < 0 then inf else nan
  | inf, inf => inf
  | inf, ninf => ninf
  | ninf, inf => ninf
  | ninf, ninf => inf
  | nan, _ => nan
  | _, nan => nan

/-- IEEE subtraction on `ERat`. -/
def sub : ERat → ERat → ERat
  | fin a, fin b => fin (a - b)
  | fin _, inf => ninf
  | fin _, ninf => inf
  | inf, fin _ => inf
  | ninf, fin _ => ninf
  | inf, inf => nan
  | inf, ninf => inf
  | ninf, inf => ninf
  | ninf, ninf => nan
  | nan, _ => nan
  | _, nan => nan

/-- IEEE `<=` on `ERat`: any comparison with `nan` is false. -/
def leb : ERat → ERat → Bool
  | nan, _ => false
  | _, nan => false
  | fin a, fin b => decide (a ≤ b)
  | fin _, inf => true
  | inf, fin _ => false
  | inf, inf => true
  | ninf, _ => true
  | _, ninf => false

end ERat

/-- Python float division `num / den` for a nonnegative `den`
(the engine only divides by the square `q_lower * q_lower`):
division by zero yields `inf` / `-inf` / `nan` by the sign of the
numerator, with a runtime warning but no exception. -/
def divE (num den : ℚ) : ERat :=
  if den = 0 then
    if 0 < num then ERat.inf else if num < 0 then ERat.ninf else ERat.nan
  else ERat.fin (num / den)

/-- Sort a list of `(x, y)` pairs by `x`, stably: the sorting that
`interp1d(assume_sorted = False)` applies to its data (numpy argsort
with kind mergesort). -/
def sortPairsByX (l : List (ℚ × ℚ)) : List (ℚ × ℚ) :=
  List.insertionSort (fun a b => a.1 ≤ b.1) l

/-- Piecewise-linear interpolation through an `x`-sorted list of points,
extending the first and last segments linearly outside the data range
(`kind = slinear` with `fill_value = extrapolate`). -/
def linInterp : List (ℚ × ℚ) → ℚ → ℚ
  | [], _ => 0
  | [p], _ => p.2
  | p1 :: p2 :: rest, q =>
    if q ≤ p2.1 ∨ rest = [] then
      p1.2 + (q - p1.1) * (p2.2 - p1.2) / (p2.1 - p1.1)
    else linInterp (p2 :: rest) q

/-- Adjacent strict increase of a list of rationals. -/
def strictlyInc : List ℚ → Bool
  | [] => true
  | [_] => true
  | a :: b :: rest => decide (a < b) && strictlyInc (b :: rest)

/-- Success of the `interp1d(x, y, kind = slinear)` constructor: it
raises `ValueError` unless `x` has at least two entries and, once
sorted, is strictly increasing (no duplicates). -/
def interp1dOk (xs : List ℚ) : Bool :=
  decide (2 ≤ xs.length) &&
    strictlyInc (List.insertionSort (fun a b => a ≤ b) xs)

/-- Evaluation of the `interp1d(x, y, kind = slinear,
fill_value = extrapolate)` interpolant at `q`. -/
def interp1dEval (xs ys : List ℚ) (q : ℚ) : ℚ :=
  linInterp (sortPairsByX (xs.zip ys)) q

/-- The residual `curve_interp(q) - k * q * q` of
`find_parabola_intersection` (`src/plotting.py` lines 42-49), with the
code's special case for `k == float(inf)`: residual `0` at `q = 0` and
the bare interpolant elsewhere. -/
def residualFun (ci : ℚ → ℚ) (k : ERat) (q : ℚ) : ERat :=
  if k = ERat.inf then (if q = 0 then ERat.fin 0 else ERat.fin (ci q))
  else ERat.sub (ERat.fin (ci q)) (ERat.mul (ERat.mul k (ERat.fin q)) (ERat.fin q))

/-- The sign-change scan of `find_parabola_intersection`
(`src/plotting.py` lines 58-68): walk consecutive sample points, and on
the first pair whose residual product is `<= 0` hand the bracket to the
root finder `rf` and return the root paired with the interpolant there. -/
def scanPairs (rf : (ℚ → ERat) → ℚ → ℚ → ℚ) (resid : ℚ → ERat) (ci : ℚ → ℚ) :
    List ℚ → Option (ℚ × ℚ)
  | t1 :: t2 :: rest =>
    if ERat.leb (ERat.mul (resid t1) (resid t2)) (ERat.fin 0) then
      some (rf resid t1 t2, ci (rf resid t1 t2))
    else scanPairs rf resid ci (t2 :: rest)
  | _ => none

/-- The index of the first consecutive pair of the residual sample list
whose product is `<= 0` in IEEE comparison; `none` when no such pair
exists. -/
def firstSignIdx : List ERat → Option ℕ
  | r1 :: r2 :: rest =>
    if ERat.leb (ERat.mul r1 r2) (ERat.fin 0) then some 0
    else (firstSignIdx (r2 :: rest)).map (fun i => i + 1)
  | _ => none

/-- The 50 sample points of `find_parabola_intersection`
(`src/plotting.py` lines 53-57), spanning
`[min(flow), max(flow) * 1.05]`. -/
def fpiPts (flow_arr : List ℚ) : List ℚ :=
  linspace (pyMin flow_arr) (pyMax flow_arr * (21 / 20)) 50

/-- The residual samples of `find_parabola_intersection` at the 50
sample points. -/
def fpiResid (flow_arr head_arr : List ℚ) (k : ERat) : List ERat :=
  (fpiPts flow_arr).map (residualFun (interp1dEval flow_arr head_arr) k)

/-- Body of `find_parabola_intersection` after the interpolant has been
constructed: the sign-change scan over the 50 sample points. -/
def fpiCore (rf : (ℚ → ERat) → ℚ → ℚ → ℚ) (flow_arr head_arr : List ℚ)
    (k : ERat) : Option (ℚ × ℚ) :=
  scanPairs rf (residualFun (interp1dEval flow_arr head_arr) k)
    (interp1dEval flow_arr head_arr) (fpiPts flow_arr)

/-- Model of `find_parabola_intersection` (`src/plotting.py` lines 22-70).  The
`interp1d` construction on line 35 is outside the try / except, so its
`ValueError` escapes the function; the sign-change scan itself returns
`None` when no bracketing pair is found. -/
def find_parabola_intersection (rf : (ℚ → ERat) → ℚ → ℚ → ℚ)
    (flow_arr head_arr : List ℚ) (k : ERat) : Except Unit (Option (ℚ × ℚ)) :=
  if interp1dOk flow_arr then Except.ok (fpiCore rf flow_arr head_arr k)
  else Except.error ()

/-- The bracket scan of `interpolate_curve` (`src/plotting.py` lines
105-110) over the descending-sorted trim diameters: walking the list,
`upper` is overwritten with every index whose diameter is `>= target`,
and the loop stops at the first index whose diameter is `<= target`,
recording it as `lower`.  Returns `(upper_idx, lower_idx)` as options. -/
def scanLoop (target : ℚ) : List ℚ → ℕ → Option ℕ → Option ℕ × Option ℕ
  | [], _, upper => (upper, none)
  | d :: rest, i, upper =>
    if d ≤ target then ((if target ≤ d then some i else upper), some i)
    else scanLoop target rest (i + 1) (if target ≤ d then some i else upper)

/-- The out-of-range fallback of `interpolate_curve`
(`src/plotting.py` lines 112-117): when the scan leaves either index
unresolved, take the two largest curves when the target exceeds the
largest trim, the two smallest otherwise.  (`trims.headD 0` stands for
the Python `trim_diameters[0]`, only reached on a nonempty list.) -/
def selectFromScan (trims : List ℚ) (target : ℚ) :
    Option ℕ × Option ℕ → ℕ × ℕ
  | (some u, some l) => (u, l)
  | _ =>
    if trims.headD 0 < target then (0, 1)
    else (trims.length - 2, trims.length - 1)

/-- The equal-index adjustment of `interpolate_curve`
(`src/plotting.py` lines 119-124): prefer decrementing the upper index,
otherwise increment the lower one. -/
def adjustIdx : ℕ × ℕ → ℕ × ℕ
  | (u, l) => if u = l then (if 0 < u then (u - 1, l) else (u, l + 1)) else (u, l)

/-- Bracket selection of `interpolate_curve` (`src/plotting.py` lines
101-124): the scan, the out-of-range fallback, and the equal-index
adjustment that guarantees two distinct indices. -/
def selectBracket (trims : List ℚ) (target : ℚ) : ℕ × ℕ :=
  adjustIdx (selectFromScan trims target (scanLoop target trims 0 none))

/-- The blend factor of `interpolate_curve` (`src/plotting.py` lines
131-136): `(target - lower) / (upper - lower)` for a proper bracket and
the constant `0.5` when the two bracketing diameters coincide. -/
def blendFactor (upperD lowerD target : ℚ) : ℚ :=
  if upperD ≠ lowerD then (target - lowerD) / (upperD - lowerD) else 1 / 2

/-- One curve record as produced by `get_curve_data`
(`src/plotting.py` lines 14-19): parallel flow / head arrays, a power
array gathered from the points that carry a power reading, and the
per-point rpm array. -/
structure CurveData where
  flow : List ℚ
  head : List ℚ
  power : List ℚ
  rpm : List ℚ
deriving DecidableEq, Inhabited

/-- The record returned by `interpolate_curve`
(`src/plotting.py` lines 222-230). -/
structure InterpCurve where
  flow : List ℚ
  head : List ℚ
  power : Option (List ℚ)
  rpm : ℚ
  trim_diameter : ℚ
  interpolated_from : ℚ × ℚ
  factor : ℚ
deriving DecidableEq

/-- One successfully blended sample of the `interpolate_curve` loop
(`src/plotting.py` lines 150-179): the blended flow and head plus the
lower / upper curve flows retained for power interpolation. -/
structure BlendPt where
  q : ℚ
  h : ℚ
  ql : ℚ
  qu : ℚ
deriving DecidableEq

/-- Body of one iteration of the sampling loop of `interpolate_curve`
(`src/plotting.py` lines 150-179): evaluate the lower head, form
`k = h_lower / (q_lower * q_lower)` in float semantics, intersect the
affinity parabola with the upper curve, and on success blend flow and
head with the factor.  `none` models `continue`. -/
def blendStep (rf : (ℚ → ERat) → ℚ → ℚ → ℚ) (upper : CurveData)
    (lowerFlow lowerHead : List ℚ) (factor : ℚ) (q : ℚ) : Option BlendPt :=
  match fpiCore rf upper.flow upper.head
      (divE (interp1dEval lowerFlow lowerHead q) (q * q)) with
  | none => none
  | some (qu, hu) =>
    some ⟨q + factor * (qu - q),
      interp1dEval lowerFlow lowerHead q +
        factor * (hu - interp1dEval lowerFlow lowerHead q), q, qu⟩

/-- The zipped and descending-sorted `(trim, curve)` pairs of
`interpolate_curve` (`src/plotting.py` lines 97-99); Python `sorted`
with `reverse = True` is stable, as is insertion sort with this
relation. -/
def sortedPairs (curves_data : List CurveData) (trim_diameters : List ℚ) :
    List (ℚ × CurveData) :=
  List.insertionSort (fun a b => b.1 ≤ a.1) (trim_diameters.zip curves_data)

/-- The bracket index pair chosen by `interpolate_curve` over the
sorted trims. -/
def bracketIdx (curves_data : List CurveData) (trim_diameters : List ℚ)
    (target : ℚ) : ℕ × ℕ :=
  selectBracket ((sortedPairs curves_data trim_diameters).map Prod.fst) target

/-- The upper bracketing curve chosen by `interpolate_curve`
(`src/plotting.py` line 126). -/
def upperCurveOf (curves_data : List CurveData) (trim_diameters : List ℚ)
    (target : ℚ) : CurveData :=
  ((sortedPairs curves_data trim_diameters).map Prod.snd).getD
    (bracketIdx curves_data trim_diameters target).1 default

/-- The lower bracketing curve chosen by `interpolate_curve`
(`src/plotting.py` line 127). -/
def lowerCurveOf (curves_data : List CurveData) (trim_diameters : List ℚ)
    (target : ℚ) : CurveData :=
  ((sortedPairs curves_data trim_diameters).map Prod.snd).getD
    (bracketIdx curves_data trim_diameters target).2 default

/-- The upper bracketing trim diameter (`src/plotting.py` line 128). -/
def upperDiamOf (curves_data : List CurveData) (trim_diameters : List ℚ)
    (target : ℚ) : ℚ :=
  ((sortedPairs curves_data trim_diameters).map Prod.fst).getD
    (bracketIdx curves_data trim_diameters target).1 0

/-- The lower bracketing trim diameter (`src/plotting.py` line 129). -/
def lowerDiamOf (curves_data : List CurveData) (trim_diameters : List ℚ)
    (target : ℚ) : ℚ :=
  ((sortedPairs curves_data trim_diameters).map Prod.fst).getD
    (bracketIdx curves_data trim_diameters target).2 0

/-- The `num_points` flow samples taken uniformly across the lower
curve's flow domain (`src/plotting.py` lines 139-140). -/
def lowerSamples (curves_data : List CurveData) (trim_diameters : List ℚ)
    (target : ℚ) (num_points : ℕ) : List ℚ :=
  linspace (pyMin (lowerCurveOf curves_data trim_diameters target).flow)
    (pyMax (lowerCurveOf curves_data trim_diameters target).flow) num_points

/-- The successfully blended sample points of the `interpolate_curve`
loop (`src/plotting.py` lines 145-179), in sampling order. -/
def blendedOf (rf : (ℚ → ERat) → ℚ → ℚ → ℚ) (curves_data : List CurveData)
    (trim_diameters : List ℚ) (target : ℚ) (num_points : ℕ) : List BlendPt :=
  (lowerSamples curves_data trim_diameters target num_points).filterMap
    (blendStep rf (upperCurveOf curves_data trim_diameters target)
      (lowerCurveOf curves_data trim_diameters target).flow
      (lowerCurveOf curves_data trim_diameters target).head
      (blendFactor (upperDiamOf curves_data trim_diameters target)
        (lowerDiamOf curves_data trim_diameters target) target))

/-- The blended sample points sorted ascending by blended flow
(`src/plotting.py` lines 187-192); the same permutation is carried into
the retained lower / upper flows through the `BlendPt` records.  numpy
argsort leaves the order of tied keys unspecified; insertion sort picks
one admissible order. -/
def sortedBlendedOf (rf : (ℚ → ERat) → ℚ → ℚ → ℚ) (curves_data : List CurveData)
    (trim_diameters : List ℚ) (target : ℚ) (num_points : ℕ) : List BlendPt :=
  List.insertionSort (fun a b => a.q ≤ b.q)
    (blendedOf rf curves_data trim_diameters target num_points)

/-- The power interpolation of `interpolate_curve` (`src/plotting.py`
lines 196-217): only attempted when both bracketing curves carry power
data; the whole power array becomes absent when either power
interpolant constructor would raise (the surrounding try / except). -/
def powerOf (rf : (ℚ → ERat) → ℚ → ℚ → ℚ) (curves_data : List CurveData)
    (trim_diameters : List ℚ) (target : ℚ) (num_points : ℕ) : Option (List ℚ) :=
  if (upperCurveOf curves_data trim_diameters target).power ≠ [] ∧
      (lowerCurveOf curves_data trim_diameters target).power ≠ [] then
    if interp1dOk ((upperCurveOf curves_data trim_diameters target).flow.take
          (upperCurveOf curves_data trim_diameters target).power.length) ∧
        interp1dOk ((lowerCurveOf curves_data trim_diameters target).flow.take
          (lowerCurveOf curves_data trim_diameters target).power.length) then
      some ((sortedBlendedOf rf curves_data trim_diameters target num_points).map
        (fun pt =>
          interp1dEval
              ((lowerCurveOf curves_data trim_diameters target).flow.take
                (lowerCurveOf curves_data trim_diameters target).power.length)
              (lowerCurveOf curves_data trim_diameters target).power pt.ql +
            blendFactor (upperDiamOf curves_data trim_diameters target)
                (lowerDiamOf curves_data trim_diameters target) target *
              (interp1dEval
                  ((upperCurveOf curves_data trim_diameters target).flow.take
                    (upperCurveOf curves_data trim_diameters target).power.length)
                  (upperCurveOf curves_data trim_diameters target).power pt.qu -
                interp1dEval
                  ((lowerCurveOf curves_data trim_diameters target).flow.take
                    (lowerCurveOf curves_data trim_diameters target).power.length)
                  (lowerCurveOf curves_data trim_diameters target).power pt.ql)))
    else none
  else none

/-- The record assembled by `interpolate_curve` on success
(`src/plotting.py` lines 222-230). -/
def interpResult (rf : (ℚ → ERat) → ℚ → ℚ → ℚ) (curves_data : List CurveData)
    (trim_diameters : List ℚ) (target : ℚ) (num_points : ℕ) : InterpCurve :=
  { flow := (sortedBlendedOf rf curves_data trim_diameters target num_points).map BlendPt.q
    head := (sortedBlendedOf rf curves_data trim_diameters target num_points).map BlendPt.h
    power := powerOf rf curves_data trim_diameters target num_points
    rpm := (pyMean (upperCurveOf curves_data trim_diameters target).rpm +
      pyMean (lowerCurveOf curves_data trim_diameters target).rpm) / 2
    trim_diameter := target
    interpolated_from := (lowerDiamOf curves_data trim_diameters target,
      upperDiamOf curves_data trim_diameters target)
    factor := blendFactor (upperDiamOf curves_data trim_diameters target)
      (lowerDiamOf curves_data trim_diameters target) target }

/-- Model of `interpolate_curve` (`src/plotting.py` lines 73-230).
`Except.error ()` models the `ValueError` that escapes when an
`interp1d` constructor outside a try / except is handed fewer than two
points or duplicate flows (line 142 for the lower curve; line 35 via
`find_parabola_intersection`, reached whenever the sampling loop runs,
for the upper curve); `Except.ok none` models the value-level `None`
returns on lines 94 and 182; the power try / except on lines 198-217
maps any constructor failure there to an absent power array. -/
def interpolate_curve (rf : (ℚ → ERat) → ℚ → ℚ → ℚ)
    (curves_data : List CurveData) (trim_diameters : List ℚ)
    (target_diameter : ℚ) (num_points : ℕ) : Except Unit (Option InterpCurve) :=
  if curves_data.length < 2 then Except.ok none else
  if interp1dOk (lowerCurveOf curves_data trim_diameters target_diameter).flow then
    if (lowerSamples curves_data trim_diameters target_diameter num_points).isEmpty = false ∧
        interp1dOk (upperCurveOf curves_data trim_diameters target_diameter).flow = false then
      Except.error ()
    else
      if (blendedOf rf curves_data trim_diameters target_diameter num_points).length < 3 then
        Except.ok none
      else
        Except.ok (some
          (interpResult rf curves_data trim_diameters target_diameter num_points))
  else Except.error ()

/-- One raw stored point (`curve_points` row in `src/database.py`):
flow and head are mandatory, the power reading is optional. -/
structure RawPoint where
  flow_gpm : ℚ
  head_ft : ℚ
  power_hp : Option ℚ
  rpm : ℚ
deriving DecidableEq, Inhabited

/-- Model of `get_curve_data` (`src/plotting.py` lines 8-19) applied to the
fetched point list: `None` for an empty point set, otherwise parallel
flow / head / rpm arrays and the power array filtered down to the
points that carry a reading. -/
def get_curve_data (points : List RawPoint) : Option CurveData :=
  if points = [] then none
  else some {
    flow := points.map RawPoint.flow_gpm
    head := points.map RawPoint.head_ft
    power := points.filterMap RawPoint.power_hp
    rpm := points.map RawPoint.rpm }

/-- Zip three parallel arrays into triples, truncating to the shortest:
the `n = min(len(flow), len(head), len(power))` prefix iteration of the
derating loops in `src/main.py`. -/
def zip3Q : List ℚ → List ℚ → List ℚ → List (ℚ × ℚ × ℚ)
  | q :: qs, h :: hs, p :: ps => (q, h, p) :: zip3Q qs hs ps
  | _, _, _ => []

/-- The over-limit test `p > power_limit and p > 0` of the derating
loops (`src/main.py` lines 718 and 770). -/
def overLimit (limit : ℚ) (t : ℚ × ℚ × ℚ) : Bool :=
  decide (limit < t.2.2 ∧ 0 < t.2.2)

/-- The derated point `(r * q, r * r * h)` for a sample `(q, h, p)`,
with `r = rt (limit / p)` where `rt` models the float speed-ratio root
(`** (1/3)` for the power-ceiling envelope, `** 0.5` for the
reduced-speed overlay). -/
def deratePoint (rt : ℚ → ℚ) (limit : ℚ) (t : ℚ × ℚ × ℚ) : ℚ × ℚ :=
  (rt (limit / t.2.2) * t.1, rt (limit / t.2.2) * rt (limit / t.2.2) * t.2.1)

/-- The power-ceiling envelope loop (`src/main.py` lines 713-731):
derate every over-limit sample, break the output into contiguous runs
at every sample that is not over the limit, and flush the trailing run
after the loop.  Empty runs are not emitted. -/
def envLoop (rt : ℚ → ℚ) (limit : ℚ) :
    List (ℚ × ℚ × ℚ) → List (ℚ × ℚ) → List (List (ℚ × ℚ))
  | [], seg => if seg = [] then [] else [seg]
  | t :: rest, seg =>
    if overLimit limit t then
      envLoop rt limit rest (seg ++ [deratePoint rt limit t])
    else if seg = [] then envLoop rt limit rest []
    else seg :: envLoop rt limit rest []

/-- The power-ceiling envelope (`src/main.py` lines 711-731) on the
aligned flow / head / power arrays of the reference curve. -/
def powerEnvelope (rt : ℚ → ℚ) (limit : ℚ) (flow head power : List ℚ) :
    List (List (ℚ × ℚ)) :=
  envLoop rt limit (zip3Q flow head power) []

/-- Declarative run splitting: chunks of consecutive elements satisfying
`ov`, cut (with the separator dropped) at every element that does not.
The chunk list is always nonempty and chunks at the cut points may be
empty. -/
def splitRuns {α : Type} (ov : α → Bool) : List α → List (List α)
  | [] => [[]]
  | a :: l =>
    if ov a then
      match splitRuns ov l with
      | c :: cs => (a :: c) :: cs
      | [] => [[a]]
    else [] :: splitRuns ov l

/-- The derated point of a sample together with its speed ratio: the
`(r*q, r*r*h, r)` triple the reduced-speed loop tracks as tail
candidate (`src/main.py` line 775). -/
def derateTriple (rt : ℚ → ℚ) (limit : ℚ) (t : ℚ × ℚ × ℚ) : ℚ × ℚ × ℚ :=
  ((deratePoint rt limit t).1, (deratePoint rt limit t).2, rt (limit / t.2.2))

/-- The reduced-speed overlay loop for one reference curve
(`src/main.py` lines 763-785): the same run segmentation as the
envelope, additionally tracking the last derated point and its speed
ratio as the tail annotation candidate. -/
def rsLoop (rt : ℚ → ℚ) (limit : ℚ) :
    List (ℚ × ℚ × ℚ) → List (ℚ × ℚ) → Option (ℚ × ℚ × ℚ) →
    List (List (ℚ × ℚ)) × Option (ℚ × ℚ × ℚ)
  | [], seg, tl => (if seg = [] then [] else [seg], tl)
  | t :: rest, seg, tl =>
    if overLimit limit t then
      rsLoop rt limit rest (seg ++ [deratePoint rt limit t])
        (some ((deratePoint rt limit t).1, (deratePoint rt limit t).2,
          rt (limit / t.2.2)))
    else if seg = [] then rsLoop rt limit rest [] tl
    else
      ((rsLoop rt limit rest [] tl).1.cons seg, (rsLoop rt limit rest [] tl).2)

/-- The reduced-speed overlay (`src/main.py` lines 760-785): runs of
derated points and the tail `(q, h, r)` of the final run. -/
def reducedSpeed (rt : ℚ → ℚ) (limit : ℚ) (flow head power : List ℚ) :
    List (List (ℚ × ℚ)) × Option (ℚ × ℚ × ℚ) :=
  rsLoop rt limit (zip3Q flow head power) [] none

/-- The six standard synchronous speeds with their line frequencies
(`src/main.py` lines 38-42), in source order. -/
def rpmTable : List (ℤ × ℚ) :=
  [(3500, 60), (2900, 50), (1760, 60), (1500, 50), (1160, 60), (950, 50)]

/-- Python `min(iterable, key = ...)`: fold keeping the first element
whose key is minimal (a later element replaces the best only when its
key is strictly smaller). -/
def pyMinBy (key : ℤ × ℚ → ℕ) : List (ℤ × ℚ) → ℤ × ℚ → ℤ × ℚ
  | [], best => best
  | x :: xs, best => pyMinBy key xs (if key x < key best then x else best)

/-- Model of `_get_standard_frequency` (`src/main.py` lines 32-44): the line
frequency of the table entry nearest to the measured rpm by absolute
difference, ties resolved to the earlier table entry. -/
def get_standard_frequency (rpm : ℤ) : ℚ :=
  (pyMinBy (fun x => (x.1 - rpm).natAbs) rpmTable.tail
    (rpmTable.headD (3500, 60))).2

/-- The tail annotation of the reduced-speed overlay (`src/main.py`
lines 787-791): for the tail `(q, h, r)` of the final run, the
annotation anchored at `(q, h)` carrying
`min_frequency = standard_frequency(rpm) * r` and the speed fraction
`r`. -/
def rsAnnotationVal (rt : ℚ → ℚ) (limit : ℚ) (rpm : ℤ)
    (flow head power : List ℚ) : Option (ℚ × ℚ × ℚ × ℚ) :=
  (reducedSpeed rt limit flow head power).2.map
    (fun t => (t.1, t.2.1, get_standard_frequency rpm * t.2.2, t.2.2))

/-- A concrete root-finder instance for evaluating the embedding: like
scipy `brentq` it returns an endpoint at which the residual is exactly
zero (scipy returns `xpre` / `xcur` immediately in that case), and
otherwise some interior point of the bracket standing for the
floating-point root. -/
def brentqModel (f : ℚ → ERat) (a b : ℚ) : ℚ :=
  if f a = ERat.fin 0 then a else if f b = ERat.fin 0 then b else (a + b) / 2

/-- A concrete stand-in for the float cube root `x ** (1.0 / 3.0)` of
the envelope derating: exact on the cubes exercised by the concrete
inputs below and some value in `[0, 1]` elsewhere on `[0, 1]`. -/
def cbrtModel (x : ℚ) : ℚ :=
  if x = 1 / 8 then 1 / 2 else if x = 27 / 64 then 3 / 4
  else if 0 ≤ x then (1 + x) / 2 else 0

/-- A concrete stand-in for the float square root `x ** 0.5` of the
reduced-speed derating: exact on the squares exercised by the concrete
inputs below and some value in `[0, 1]` elsewhere on `[0, 1]`. -/
def sqrtModel (x : ℚ) : ℚ :=
  if x = 1 / 4 then 1 / 2 else if x = 1 / 16 then 1 / 4
  else if 0 ≤ x then (1 + x) / 2 else 0

/-! ## Concrete inputs used by counterexamples and witnesses -/

/-- A flat curve used to exercise the duplicate-trim degenerate
bracket. -/
def curveFlat : CurveData := { flow := [0, 100], head := [40, 40], power := [], rpm := [1800] }

/-- Upper curve for the single-point-bracket counterexample. -/
def curveC4upper : CurveData := { flow := [0, 100], head := [60, 50], power := [], rpm := [1800] }

/-- A curve with a single measured point. -/
def curveC4single : CurveData := { flow := [50], head := [40], power := [], rpm := [1800] }

/-- Upper curve for the single-point-bracket witness. -/
def curveC4wUpper : CurveData := { flow := [0, 120], head := [70, 55], power := [], rpm := [1500] }

/-- Another curve with a single measured point. -/
def curveC4wSingle : CurveData := { flow := [30], head := [45], power := [], rpm := [1500] }

/-- Upper curve whose domain starts at zero flow, so the affinity
parabola of a zero-flow lower sample (`k = inf`) meets it at `q = 0`. -/
def curveC5upper : CurveData := { flow := [0, 100], head := [60, 50], power := [], rpm := [1800] }

/-- Lower curve whose flow domain starts at zero. -/
def curveC5lower : CurveData := { flow := [0, 80], head := [50, 40], power := [], rpm := [1800] }

/-- Upper curve through the origin: every affinity parabola meets it at
`q = 0` exactly, so all blended flows coincide. -/
def curveC7upper : CurveData := { flow := [0, 100], head := [0, 100], power := [], rpm := [1800] }

/-- Lower curve with constant head for the duplicate-flow
counterexample. -/
def curveC7lower : CurveData := { flow := [0, 80], head := [40, 40], power := [], rpm := [1800] }

/-- Upper curve for the monotone-flow witness. -/
def curveC7wUpper : CurveData := { flow := [0, 100], head := [60, 50], power := [], rpm := [1700] }

/-- Lower curve for the monotone-flow witness. -/
def curveC7wLower : CurveData := { flow := [0, 80], head := [50, 40], power := [], rpm := [1700] }

/-- The record `interpolate_curve` returns on the monotone-flow witness
input. -/
def interpRecC7w : InterpCurve :=
  { flow := [0, 1175/28, 2395/28], head := [55, 2817/56, 2545/56], power := none,
    rpm := 1700, trim_diameter := 9, interpolated_from := (8, 10), factor := 1/2 }

/-- Upper curve for the result-lengths witness. -/
def curveC10upper : CurveData := { flow := [0, 90], head := [0, 90], power := [], rpm := [1750] }

/-- Lower curve for the result-lengths witness. -/
def curveC10lower : CurveData := { flow := [0, 60], head := [30, 30], power := [], rpm := [1750] }

/-- The record `interpolate_curve` returns on the result-lengths
witness input. -/
def interpRecC10 : InterpCurve :=
  { flow := [0, 0, 0], head := [0, 0, 0], power := none, rpm := 1750,
    trim_diameter := 9, interpolated_from := (7, 9), factor := 1 }

/-- A point list whose first point lacks a power reading while a later
point carries one. -/
def pointsC8 : List RawPoint :=
  [{ flow_gpm := 10, head_ft := 1, power_hp := none, rpm := 1800 },
   { flow_gpm := 20, head_ft := 2, power_hp := some 5, rpm := 1800 }]

/-- A point list whose missing power readings form a suffix. -/
def pointsC8w : List RawPoint :=
  [{ flow_gpm := 1, head_ft := 2, power_hp := some 3, rpm := 1800 },
   { flow_gpm := 4, head_ft := 5, power_hp := none, rpm := 1800 }]

/-- The CurveSample `get_curve_data` produces for `pointsC8w`. -/
def curveRecC8w : CurveData :=
  { flow := [1, 4], head := [2, 5], power := [3], rpm := [1800, 1800] }

/-! ## Helper lemmas -/

theorem getD_mem_of_lt {l : List ℚ} {i : ℕ} (h : i < l.length) :
    l.getD i 0 ∈ l := by
  rw [List.getD_eq_getElem l 0 h]
  exact List.getElem_mem h

theorem descending_getD {trims : List ℚ}
    (hs : trims.Pairwise (fun a b => b < a)) {i j : ℕ} (hij : i < j)
    (hj : j < trims.length) : trims.getD j 0 < trims.getD i 0 := by
  have hi : i < trims.length := lt_trans hij hj
  rw [List.getD_eq_getElem trims 0 hj, List.getD_eq_getElem trims 0 hi]
  have := List.pairwise_iff_get.mp hs ⟨i, hi⟩ ⟨j, hj⟩ hij
  simpa [List.get_eq_getElem] using this

theorem le_getD_zero_of_descending {trims : List ℚ}
    (hs : trims.Pairwise (fun a b => b < a)) {d : ℚ} (hd : d ∈ trims) :
    d ≤ trims.getD 0 0 := by
  obtain ⟨⟨j, hj⟩, rfl⟩ := List.mem_iff_get.mp hd
  rcases Nat.eq_zero_or_pos j with h0 | h0
  · subst h0
    rw [List.getD_eq_getElem trims 0 hj, List.get_eq_getElem]
  · have := descending_getD hs h0 hj
    rw [List.getD_eq_getElem trims 0 hj] at this
    simpa [List.get_eq_getElem] using le_of_lt this

theorem headD_eq_getD_zero {l : List ℚ} (h : l ≠ []) :
    l.headD 0 = l.getD 0 0 := by
  cases l with
  | nil => exact absurd rfl h
  | cons a rest => rfl

/-! ## Bracket selection: the scan characterized -/

theorem scanLoop_all_gt (target : ℚ) :
    ∀ (l : List ℚ) (i : ℕ) (acc : Option ℕ), (∀ d ∈ l, target < d) →
      scanLoop target l i acc =
        ((if l.isEmpty then acc else some (i + l.length - 1)), none) := by
  intro l
  induction l with
  | nil => intro i acc _; simp [scanLoop]
  | cons d rest ih =>
    intro i acc hall
    have hd : target < d := hall d (List.mem_cons_self d rest)
    have hne : ¬ d ≤ target := not_le.mpr hd
    simp only [scanLoop, if_neg hne, if_pos (le_of_lt hd)]
    rw [ih (i + 1) (some i) (fun x hx => hall x (List.mem_cons_of_mem d hx))]
    cases rest with
    | nil => simp
    | cons e rest2 =>
      simp only [List.isEmpty_cons, List.length_cons]
      have harith : i + 1 + (rest2.length + 1) - 1 = i + (rest2.length + 1 + 1) - 1 := by
        omega
      simp [harith]

theorem scanLoop_found (target : ℚ) :
    ∀ (l : List ℚ) (i : ℕ) (acc : Option ℕ), (∃ d ∈ l, d ≤ target) →
      ∃ lw, lw < l.length ∧ l.getD lw 0 ≤ target ∧
        (∀ j, j < lw → target < l.getD j 0) ∧
        scanLoop target l i acc =
          ((if l.getD lw 0 = target then some (i + lw)
            else if lw = 0 then acc else some (i + lw - 1)), some (i + lw)) := by
  intro l
  induction l with
  | nil => intro i acc h; exact absurd h (by simp)
  | cons d rest ih =>
    intro i acc hex
    by_cases hdt : d ≤ target
    · refine ⟨0, by simp, by simpa using hdt,
        fun j hj => absurd hj (Nat.not_lt_zero j), ?_⟩
      by_cases heq : d = target
      · simp [scanLoop, hdt, heq]
      · have hnle : ¬ target ≤ d := fun hc => heq (le_antisymm hdt hc)
        simp [scanLoop, hdt, hnle, heq]
    · have hgt : target < d := not_le.mp hdt
      have hex2 : ∃ x ∈ rest, x ≤ target := by
        obtain ⟨x, hx, hxle⟩ := hex
        rcases List.mem_cons.mp hx with h | h
        · exact absurd (h ▸ hxle) hdt
        · exact ⟨x, h, hxle⟩
      obtain ⟨lw, hlw, hle, hgtj, heq⟩ := ih (i + 1) (some i) hex2
      refine ⟨lw + 1, by simpa using Nat.succ_lt_succ hlw, by simpa using hle,
        ?_, ?_⟩
      · intro j hj
        cases j with
        | zero => simpa using hgt
        | succ j2 =>
          simp only [List.getD_cons_succ]
          exact hgtj j2 (Nat.lt_of_succ_lt_succ hj)
      · simp only [scanLoop, if_neg hdt, if_pos (le_of_lt hgt)]
        rw [heq]
        simp only [List.getD_cons_succ]
        rw [if_neg (Nat.succ_ne_zero lw)]
        simp only [Prod.mk.injEq]
        constructor
        · split_ifs with hc1 hc2 <;> simp only [Option.some.injEq] <;> omega
        · simp only [Option.some.injEq]
          omega

/-- C1: for at least two candidate curves of distinct trim diameters
sorted descending, the chosen bracket indices are in range and
distinct; a target strictly between two existing trims gets a bracket
with `lower_diameter <= target <= upper_diameter`; a target above every
trim gets the two largest trims (indices 0 and 1), a target below every
trim the two smallest (the last two indices); and when the scan
resolves upper and lower to the same index the bracket is shifted by
one adjacent index, decrementing the upper index when possible and
otherwise incrementing the lower one. -/
theorem C1_bracket_selection (trims : List ℚ) (target : ℚ)
    (h2 : 2 ≤ trims.length) (hsort : trims.Pairwise (fun a b => b < a)) :
    ((selectBracket trims target).1 < trims.length ∧
      (selectBracket trims target).2 < trims.length ∧
      (selectBracket trims target).1 ≠ (selectBracket trims target).2) ∧
    ((∃ d ∈ trims, target < d) → (∃ d ∈ trims, d < target) →
      trims.getD (selectBracket trims target).2 0 ≤ target ∧
      target ≤ trims.getD (selectBracket trims target).1 0) ∧
    ((∀ d ∈ trims, d < target) → selectBracket trims target = (0, 1)) ∧
    ((∀ d ∈ trims, target < d) →
      selectBracket trims target = (trims.length - 2, trims.length - 1)) ∧
    (∀ i, scanLoop target trims 0 none = (some i, some i) →
      selectBracket trims target =
        (if 0 < i then (i - 1, i) else (i, i + 1))) := by
  have hnil : trims ≠ [] := by
    intro h
    rw [h] at h2
    simp at h2
  by_cases hex : ∃ d ∈ trims, d ≤ target
  · obtain ⟨lw, hlw, hle, hgtj, hscan⟩ := scanLoop_found target trims 0 none hex
    simp only [Nat.zero_add] at hscan
    by_cases heqt : trims.getD lw 0 = target
    · rw [if_pos heqt] at hscan
      have hsel : selectBracket trims target =
          if 0 < lw then (lw - 1, lw) else (lw, lw + 1) := by
        unfold selectBracket
        rw [hscan]
        simp only [selectFromScan, adjustIdx, eq_self_iff_true, if_true]
      rcases Nat.eq_zero_or_pos lw with hlw0 | hlwpos
      · subst hlw0
        rw [if_neg (lt_irrefl 0)] at hsel
        refine ⟨⟨?_, ?_, ?_⟩, ?_, ?_, ?_, ?_⟩
        · rw [hsel]; omega
        · rw [hsel]; omega
        · rw [hsel]; simp
        · intro _ _
          rw [hsel]
          refine ⟨?_, ?_⟩
          · have hd := descending_getD hsort (show 0 < 1 by omega) (by omega)
            rw [heqt] at hd
            exact le_of_lt hd
          · exact le_of_eq heqt.symm
        · intro hall
          have := hall _ (getD_mem_of_lt hlw)
          rw [heqt] at this
          exact absurd this (lt_irrefl target)
        · intro hall
          have := hall _ (getD_mem_of_lt hlw)
          rw [heqt] at this
          exact absurd this (lt_irrefl target)
        · intro i hi
          rw [hscan] at hi
          simp only [Prod.mk.injEq, Option.some.injEq] at hi
          obtain ⟨h1, -⟩ := hi
          subst h1
          rw [hsel, if_neg (lt_irrefl 0)]
      · rw [if_pos hlwpos] at hsel
        refine ⟨⟨?_, ?_, ?_⟩, ?_, ?_, ?_, ?_⟩
        · rw [hsel]; simp only; omega
        · rw [hsel]; simp only; omega
        · rw [hsel]; simp only; omega
        · intro _ _
          rw [hsel]
          exact ⟨hle, le_of_lt (hgtj (lw - 1) (by omega))⟩
        · intro hall
          have := hall _ (getD_mem_of_lt hlw)
          rw [heqt] at this
          exact absurd this (lt_irrefl target)
        · intro hall
          have := hall _ (getD_mem_of_lt hlw)
          rw [heqt] at this
          exact absurd this (lt_irrefl target)
        · intro i hi
          rw [hscan] at hi
          simp only [Prod.mk.injEq, Option.some.injEq] at hi
          obtain ⟨h1, -⟩ := hi
          subst h1
          rw [hsel, if_pos hlwpos]
    · have hlt : trims.getD lw 0 < target := lt_of_le_of_ne hle heqt
      rw [if_neg heqt] at hscan
      rcases Nat.eq_zero_or_pos lw with hlw0 | hlwpos
      · subst hlw0
        rw [if_pos rfl] at hscan
        have hheadlt : trims.headD 0 < target := by
          rw [headD_eq_getD_zero hnil]
          exact hlt
        have hsel : selectBracket trims target = (0, 1) := by
          unfold selectBracket
          rw [hscan]
          simp only [selectFromScan, adjustIdx, if_pos hheadlt]
          norm_num
        refine ⟨⟨?_, ?_, ?_⟩, ?_, ?_, ?_, ?_⟩
        · rw [hsel]; omega
        · rw [hsel]; omega
        · rw [hsel]; simp
        · intro habove _
          exfalso
          obtain ⟨dd, hdd, hddt⟩ := habove
          have hmax := le_getD_zero_of_descending hsort hdd
          exact lt_irrefl target (lt_trans (lt_of_lt_of_le hddt hmax) hlt)
        · intro _
          exact hsel
        · intro hall
          have := hall _ (getD_mem_of_lt hlw)
          exact absurd hlt (not_lt.mpr (le_of_lt this))
        · intro i hi
          rw [hscan] at hi
          simp only [Prod.mk.injEq] at hi
          exact absurd hi.1 (by simp)
      · rw [if_neg (Nat.pos_iff_ne_zero.mp hlwpos)] at hscan
        have hsel : selectBracket trims target = (lw - 1, lw) := by
          unfold selectBracket
          rw [hscan]
          simp only [selectFromScan, adjustIdx]
          rw [if_neg (by omega : ¬ (lw - 1 = lw))]
        refine ⟨⟨?_, ?_, ?_⟩, ?_, ?_, ?_, ?_⟩
        · rw [hsel]; simp only; omega
        · rw [hsel]; simp only; omega
        · rw [hsel]; simp only; omega
        · intro _ _
          rw [hsel]
          exact ⟨hle, le_of_lt (hgtj (lw - 1) (by omega))⟩
        · intro hall
          have hmem := getD_mem_of_lt (show lw - 1 < trims.length by omega)
          have h1 := hall _ hmem
          have h3 := hgtj (lw - 1) (by omega)
          exact absurd h1 (not_lt.mpr (le_of_lt h3))
        · intro hall
          have := hall _ (getD_mem_of_lt hlw)
          exact absurd hlt (not_lt.mpr (le_of_lt this))
        · intro i hi
          rw [hscan] at hi
          simp only [Prod.mk.injEq, Option.some.injEq] at hi
          omega
  · push_neg at hex
    have hall : ∀ d ∈ trims, target < d := hex
    have hscan := scanLoop_all_gt target trims 0 none hall
    have hemp : trims.isEmpty = false := by
      cases trims with
      | nil => exact absurd rfl hnil
      | cons a rest => rfl
    rw [hemp] at hscan
    simp only [Bool.false_eq_true, if_false, Nat.zero_add] at hscan
    have hmem0 := getD_mem_of_lt (show 0 < trims.length by omega)
    have hheadge : ¬ trims.headD 0 < target := by
      rw [headD_eq_getD_zero hnil]
      exact not_lt.mpr (le_of_lt (hall _ hmem0))
    have hsel : selectBracket trims target =
        (trims.length - 2, trims.length - 1) := by
      unfold selectBracket
      rw [hscan]
      simp only [selectFromScan, adjustIdx, if_neg hheadge]
      rw [if_neg (by omega : ¬ (trims.length - 2 = trims.length - 1))]
    refine ⟨⟨?_, ?_, ?_⟩, ?_, ?_, ?_, ?_⟩
    · rw [hsel]; simp only; omega
    · rw [hsel]; simp only; omega
    · rw [hsel]; simp only; omega
    · intro _ hbelow
      exfalso
      obtain ⟨dd, hdd, hddlt⟩ := hbelow
      exact lt_irrefl dd (lt_trans hddlt (hall dd hdd))
    · intro hallb
      exact absurd (hallb _ hmem0) (not_lt.mpr (le_of_lt (hall _ hmem0)))
    · intro _
      exact hsel
    · intro i hi
      rw [hscan] at hi
      simp only [Prod.mk.injEq] at hi
      exact absurd hi.2 (by simp)

/-- Witness for C1 at trims `[10, 8]` and target `9`: the chosen
bracket satisfies `lower <= 9 <= upper`. -/
theorem C1_bracket_selection_witness :
    ([10, 8] : List ℚ).getD (selectBracket [10, 8] 9).2 0 ≤ 9 ∧
      (9 : ℚ) ≤ ([10, 8] : List ℚ).getD (selectBracket [10, 8] 9).1 0 :=
  (C1_bracket_selection [10, 8] 9 (by decide) (by decide)).2.1
    ⟨10, by decide, by norm_num⟩ ⟨8, by simp, by norm_num⟩

/-! ## Stage lemmas for interpolate_curve -/

theorem lowerSamples_length (curves_data : List CurveData)
    (trim_diameters : List ℚ) (target : ℚ) (np : ℕ) :
    (lowerSamples curves_data trim_diameters target np).length = np := by
  unfold lowerSamples linspace
  simp only [List.length_map, List.length_range]

theorem blendedOf_length_le (rf : (ℚ → ERat) → ℚ → ℚ → ℚ)
    (curves_data : List CurveData) (trim_diameters : List ℚ) (target : ℚ)
    (np : ℕ) : (blendedOf rf curves_data trim_diameters target np).length ≤ np := by
  unfold blendedOf
  exact le_trans (List.length_filterMap_le _ _)
    (le_of_eq (lowerSamples_length curves_data trim_diameters target np))

theorem sortedBlendedOf_length (rf : (ℚ → ERat) → ℚ → ℚ → ℚ)
    (curves_data : List CurveData) (trim_diameters : List ℚ) (target : ℚ)
    (np : ℕ) : (sortedBlendedOf rf curves_data trim_diameters target np).length =
      (blendedOf rf curves_data trim_diameters target np).length := by
  unfold sortedBlendedOf
  exact (List.perm_insertionSort _ _).length_eq

theorem interp1dOk_of_short {xs : List ℚ} (h : xs.length < 2) :
    interp1dOk xs = false := by
  have hn : ¬ 2 ≤ xs.length := by omega
  simp [interp1dOk, hn]

theorem interp_ok_some_eq {rf : (ℚ → ERat) → ℚ → ℚ → ℚ}
    {curves_data : List CurveData} {trim_diameters : List ℚ} {target : ℚ}
    {np : ℕ} {r : InterpCurve}
    (h : interpolate_curve rf curves_data trim_diameters target np =
      Except.ok (some r)) :
    r = interpResult rf curves_data trim_diameters target np ∧
      3 ≤ (blendedOf rf curves_data trim_diameters target np).length := by
  unfold interpolate_curve at h
  split_ifs at h with h1 h2 h3 h4 <;>
    first
      | (injection h; done)
      | (injection h with h5; injection h5; done)
      | (injection h with h5
         injection h5 with h6
         exact ⟨h6.symm, by omega⟩)

instance : IsTotal BlendPt (fun a b => a.q ≤ b.q) :=
  ⟨fun a b => le_total a.q b.q⟩

instance : IsTrans BlendPt (fun a b => a.q ≤ b.q) :=
  ⟨fun _ _ _ hab hbc => le_trans hab hbc⟩

/-! ## C3: blend factor -/

/-- C3 counterexample: with two curves of equal trim diameter 10 and
target 10 the chosen bracket is degenerate (both bracketing diameters
are 10) and `interpolate_curve` records blend factor `1/2`, not `0` as
the claim states. -/
theorem C3_counterexample :
    (interpolate_curve brentqModel [curveFlat, curveFlat] [10, 10] 10 3).map
        (fun o => o.map (fun r => (r.factor, r.interpolated_from))) =
      Except.ok (some ((1/2 : ℚ), ((10 : ℚ), (10 : ℚ)))) ∧ (1 : ℚ)/2 ≠ 0 := by
  constructor
  · with_unfolding_all rfl
  · norm_num

/-- C3 (amended): the blend factor is `1/2` (not `0`) for a degenerate
bracket, `(target - lower) / (upper - lower)` otherwise, and it can lie
outside `[0, 1]` when the target is outside the bracketing range. -/
theorem C3_blend_factor :
    (∀ upperD lowerD target : ℚ, upperD = lowerD →
      blendFactor upperD lowerD target = 1/2) ∧
    (∀ upperD lowerD target : ℚ, upperD ≠ lowerD →
      blendFactor upperD lowerD target = (target - lowerD) / (upperD - lowerD)) ∧
    1 < blendFactor 10 8 12 := by
  refine ⟨?_, ?_, ?_⟩
  · intro u l t hul
    simp [blendFactor, hul]
  · intro u l t hul
    simp [blendFactor, hul]
  · norm_num [blendFactor]

/-- Witness for the amended C3 at a degenerate bracket. -/
theorem C3_blend_factor_witness : blendFactor 5 5 3 = 1/2 :=
  C3_blend_factor.1 5 5 3 rfl

/-! ## C4: failure modes -/

/-- C4 counterexample: interpolation against a bracketing curve with a
single `(flow, head)` point does not return the absence value; the
`interp1d` constructor fault escapes `interpolate_curve` (a Python
`ValueError`). -/
theorem C4_counterexample :
    interpolate_curve brentqModel [curveC4upper, curveC4single] [10, 8] 9 3 =
      Except.error () := by
  with_unfolding_all rfl

/-- C4 (amended): fewer than 2 candidate curves and fewer than 3
successfully blended samples return the absence value, but a bracketing
curve with a single point makes `interpolate_curve` raise an uncaught
interpolant-constructor fault instead of failing value-level. -/
theorem C4_failure_modes :
    (∀ (rf : (ℚ → ERat) → ℚ → ℚ → ℚ) (curves_data : List CurveData)
        (trim_diameters : List ℚ) (target : ℚ) (np : ℕ),
      curves_data.length < 2 →
      interpolate_curve rf curves_data trim_diameters target np = Except.ok none) ∧
    (∀ (rf : (ℚ → ERat) → ℚ → ℚ → ℚ) (curves_data : List CurveData)
        (trim_diameters : List ℚ) (target : ℚ) (np : ℕ),
      2 ≤ curves_data.length →
      ((lowerCurveOf curves_data trim_diameters target).flow.length = 1 ∨
        (1 ≤ np ∧
          interp1dOk (lowerCurveOf curves_data trim_diameters target).flow = true ∧
          (upperCurveOf curves_data trim_diameters target).flow.length = 1)) →
      interpolate_curve rf curves_data trim_diameters target np = Except.error ()) ∧
    (∀ (rf : (ℚ → ERat) → ℚ → ℚ → ℚ) (curves_data : List CurveData)
        (trim_diameters : List ℚ) (target : ℚ) (np : ℕ),
      interp1dOk (lowerCurveOf curves_data trim_diameters target).flow = true →
      (np = 0 ∨ interp1dOk (upperCurveOf curves_data trim_diameters target).flow = true) →
      (blendedOf rf curves_data trim_diameters target np).length < 3 →
      interpolate_curve rf curves_data trim_diameters target np = Except.ok none) := by
  refine ⟨?_, ?_, ?_⟩
  · intro rf c t tg np hlt
    unfold interpolate_curve
    rw [if_pos hlt]
  · intro rf c t tg np h2 hcase
    unfold interpolate_curve
    rw [if_neg (not_lt.mpr h2)]
    rcases hcase with h1p | ⟨hnp, hlok, hup⟩
    · have hfalse : interp1dOk (lowerCurveOf c t tg).flow = false :=
        interp1dOk_of_short (by omega)
      simp only [hfalse, Bool.false_eq_true, if_false]
    · rw [if_pos hlok]
      have hupfalse : interp1dOk (upperCurveOf c t tg).flow = false :=
        interp1dOk_of_short (by omega)
      have hlen := lowerSamples_length c t tg np
      have hne : (lowerSamples c t tg np).isEmpty = false := by
        cases hsamp : lowerSamples c t tg np with
        | nil =>
          rw [hsamp] at hlen
          simp at hlen
          omega
        | cons a l => rfl
      rw [if_pos ⟨hne, hupfalse⟩]
  · intro rf c t tg np hlok hnp3 hlt3
    unfold interpolate_curve
    by_cases h1 : c.length < 2
    · rw [if_pos h1]
    · rw [if_neg h1, if_pos hlok]
      have hc3 : ¬ ((lowerSamples c t tg np).isEmpty = false ∧
          interp1dOk (upperCurveOf c t tg).flow = false) := by
        rcases hnp3 with h0 | hupok
        · intro hc
          have hnil2 : lowerSamples c t tg np = [] :=
            List.length_eq_zero.mp (by rw [lowerSamples_length]; exact h0)
          rw [hnil2] at hc
          exact absurd hc.1 (by simp)
        · intro hc
          rw [hupok] at hc
          exact absurd hc.2 (by simp)
      rw [if_neg hc3, if_pos hlt3]

/-- Witness for the amended C4: a concrete single-point lower bracket
curve makes the call fault. -/
theorem C4_failure_modes_witness :
    interpolate_curve brentqModel [curveC4wUpper, curveC4wSingle] [11, 7] 9 5 =
      Except.error () :=
  C4_failure_modes.2.1 brentqModel [curveC4wUpper, curveC4wSingle] [11, 7] 9 5
    (by norm_num) (Or.inl (by with_unfolding_all rfl))

/-! ## C5: zero-flow samples -/

/-- C5 counterexample: with the lower curve sampled at `{0, 40, 80}`,
the zero-flow sample is not skipped: all three samples blend (length
3), and the first output point `(0, 55)` comes from `q_lower = 0` via
`k = inf` and the solver's `q = 0` root. -/
theorem C5_counterexample :
    (interpolate_curve brentqModel [curveC5upper, curveC5lower] [10, 8] 9 3).map
        (fun o => o.map (fun r => (r.flow.length, r.flow.getD 0 0, r.head.getD 0 0))) =
      Except.ok (some (3, 0, 55)) := by
  with_unfolding_all rfl

/-- C5 (amended): the division `h_lower / q_lower²` at zero flow is not
guarded; in float semantics it produces `inf` (positive head), `-inf`
(negative head) or `nan` (zero head), and no division fault ever
escapes: whenever both bracketing interpolant constructors succeed the
whole call returns value-level. -/
theorem C5_zero_flow_division :
    (∀ h : ℚ, 0 < h → divE h 0 = ERat.inf) ∧
    (∀ h : ℚ, h < 0 → divE h 0 = ERat.ninf) ∧
    divE 0 0 = ERat.nan ∧
    (∀ (rf : (ℚ → ERat) → ℚ → ℚ → ℚ) (curves_data : List CurveData)
        (trim_diameters : List ℚ) (target : ℚ) (np : ℕ),
      interp1dOk (lowerCurveOf curves_data trim_diameters target).flow = true →
      interp1dOk (upperCurveOf curves_data trim_diameters target).flow = true →
      ∃ res, interpolate_curve rf curves_data trim_diameters target np =
        Except.ok res) := by
  refine ⟨?_, ?_, ?_, ?_⟩
  · intro h hp
    simp [divE, hp]
  · intro h hneg
    have hnp : ¬ 0 < h := by linarith
    simp [divE, hnp, hneg]
  · simp [divE]
  · intro rf c t tg np hlok hupok
    unfold interpolate_curve
    by_cases h1 : c.length < 2
    · exact ⟨none, by rw [if_pos h1]⟩
    · rw [if_neg h1, if_pos hlok]
      have hc3 : ¬ ((lowerSamples c t tg np).isEmpty = false ∧
          interp1dOk (upperCurveOf c t tg).flow = false) := by
        intro hc
        rw [hupok] at hc
        exact absurd hc.2 (by simp)
      rw [if_neg hc3]
      by_cases h4 : (blendedOf rf c t tg np).length < 3
      · exact ⟨none, by rw [if_pos h4]⟩
      · exact ⟨some (interpResult rf c t tg np), by rw [if_neg h4]⟩

/-- Witness for the amended C5 at concrete curves with valid
interpolants. -/
theorem C5_zero_flow_division_witness :
    ∃ res, interpolate_curve brentqModel [curveC10upper, curveC10lower] [9, 7] 8 4 =
      Except.ok res :=
  C5_zero_flow_division.2.2.2 brentqModel [curveC10upper, curveC10lower] [9, 7] 8 4
    (by with_unfolding_all rfl) (by with_unfolding_all rfl)

/-! ## C7: flow ordering of the result -/

/-- C7 counterexample: an upper curve through the origin makes every
affinity parabola intersect it at exactly `q = 0`, so with blend factor
1 all blended flows coincide: the returned flow array `[0, 0, 0]` is
not strictly increasing. -/
theorem C7_counterexample :
    (interpolate_curve brentqModel [curveC7upper, curveC7lower] [10, 8] 10 3).map
        (fun o => o.map InterpCurve.flow) = Except.ok (some [0, 0, 0]) ∧
      ¬ (([0, 0, 0] : List ℚ).getD 0 0 < ([0, 0, 0] : List ℚ).getD 1 0) := by
  constructor
  · with_unfolding_all rfl
  · simp

/-- C7 (amended): the flow array of every non-absent
`interpolate_curve` result is sorted ascending, but only weakly:
`flow[i] <= flow[i+1]` (duplicates can survive the sort). -/
theorem C7_flow_sorted (rf : (ℚ → ERat) → ℚ → ℚ → ℚ)
    (curves_data : List CurveData) (trim_diameters : List ℚ) (target : ℚ)
    (np : ℕ) (r : InterpCurve)
    (h : interpolate_curve rf curves_data trim_diameters target np =
      Except.ok (some r)) :
    ∀ i, i + 1 < r.flow.length → r.flow.getD i 0 ≤ r.flow.getD (i + 1) 0 := by
  obtain ⟨req, -⟩ := interp_ok_some_eq h
  subst req
  intro i hi
  have hs : List.Sorted (fun a b : BlendPt => a.q ≤ b.q)
      (sortedBlendedOf rf curves_data trim_diameters target np) := by
    unfold sortedBlendedOf
    exact List.sorted_insertionSort _ _
  have hp : List.Pairwise (fun a b : ℚ => a ≤ b)
      ((sortedBlendedOf rf curves_data trim_diameters target np).map BlendPt.q) :=
    List.pairwise_map.mpr hs
  simp only [interpResult] at hi ⊢
  have hi1 : i < ((sortedBlendedOf rf curves_data trim_diameters target np).map
      BlendPt.q).length := by omega
  have hi2 : i + 1 < ((sortedBlendedOf rf curves_data trim_diameters target np).map
      BlendPt.q).length := hi
  rw [List.getD_eq_getElem _ 0 hi1, List.getD_eq_getElem _ 0 hi2]
  have := List.pairwise_iff_get.mp hp ⟨i, hi1⟩ ⟨i + 1, hi2⟩ (by simp)
  simpa [List.get_eq_getElem] using this

/-- Witness for the amended C7 at a concrete interpolation whose output
has three distinct flows. -/
theorem C7_flow_sorted_witness :
    interpolate_curve brentqModel [curveC7wUpper, curveC7wLower] [10, 8] 9 3 =
      Except.ok (some interpRecC7w) ∧
    interpRecC7w.flow.getD 0 0 ≤ interpRecC7w.flow.getD 1 0 := by
  refine ⟨by with_unfolding_all rfl, ?_⟩
  exact C7_flow_sorted brentqModel [curveC7wUpper, curveC7wLower] [10, 8] 9 3
    interpRecC7w (by with_unfolding_all rfl) 0 (by norm_num [interpRecC7w])

/-! ## C10: result array lengths -/

/-- C10: every non-absent `interpolate_curve` result has head array of
the same length as the flow array, a power array (when present) of
exactly that length, and the common length lies between 3 and
`num_points`. -/
theorem C10_result_lengths (rf : (ℚ → ERat) → ℚ → ℚ → ℚ)
    (curves_data : List CurveData) (trim_diameters : List ℚ) (target : ℚ)
    (np : ℕ) (r : InterpCurve)
    (h : interpolate_curve rf curves_data trim_diameters target np =
      Except.ok (some r)) :
    r.head.length = r.flow.length ∧
    (∀ pw, r.power = some pw → pw.length = r.flow.length) ∧
    3 ≤ r.flow.length ∧ r.flow.length ≤ np := by
  obtain ⟨req, h3⟩ := interp_ok_some_eq h
  subst req
  refine ⟨?_, ?_, ?_, ?_⟩
  · simp [interpResult]
  · intro pw hpw
    simp only [interpResult] at hpw ⊢
    unfold powerOf at hpw
    split_ifs at hpw with hA hB <;>
      first
        | (injection hpw; done)
        | (injection hpw with h5
           rw [← h5]
           simp)
  · have hl := sortedBlendedOf_length rf curves_data trim_diameters target np
    simp only [interpResult, List.length_map]
    omega
  · have hl := sortedBlendedOf_length rf curves_data trim_diameters target np
    have hle := blendedOf_length_le rf curves_data trim_diameters target np
    simp only [interpResult, List.length_map]
    omega

/-- Witness for C10 at a concrete interpolation. -/
theorem C10_result_lengths_witness :
    interpolate_curve brentqModel [curveC10upper, curveC10lower] [9, 7] 9 3 =
      Except.ok (some interpRecC10) ∧
    (3 ≤ interpRecC10.flow.length ∧ interpRecC10.flow.length ≤ 3) :=
  ⟨by with_unfolding_all rfl,
    (C10_result_lengths brentqModel [curveC10upper, curveC10lower] [9, 7] 9 3
      interpRecC10 (by with_unfolding_all rfl)).2.2⟩

/-! ## C8: power array alignment -/

/-- Alignment of the filtered power array with the point list holds
when the points lacking a power reading form a suffix. -/
theorem filterMap_prefix_align :
    ∀ points : List RawPoint,
      (∀ j, j < points.length → ∀ i, i < j →
        (points.getD i default).power_hp = none →
        (points.getD j default).power_hp = none) →
      ∀ i, i < (points.filterMap RawPoint.power_hp).length →
        (points.getD i default).power_hp =
          some ((points.filterMap RawPoint.power_hp).getD i 0) := by
  intro points
  induction points with
  | nil =>
    intro _ i hi
    simp at hi
  | cons p rest ih =>
    intro hcond i hi
    cases hp : p.power_hp with
    | some v =>
      have hfm : (p :: rest).filterMap RawPoint.power_hp =
          v :: rest.filterMap RawPoint.power_hp := by
        simp [List.filterMap_cons, hp]
      cases i with
      | zero =>
        rw [hfm]
        simpa using hp
      | succ i2 =>
        rw [hfm] at hi
        rw [hfm]
        simp only [List.getD_cons_succ]
        refine ih ?_ i2 (by simpa using Nat.lt_of_succ_lt_succ hi)
        intro j hj i3 hi3 hnone
        have hstep := hcond (j + 1) (by simpa using Nat.succ_lt_succ hj)
          (i3 + 1) (Nat.succ_lt_succ hi3)
        simp only [List.getD_cons_succ] at hstep
        exact hstep hnone
    | none =>
      have hallnone : ∀ x ∈ rest, RawPoint.power_hp x = none := by
        intro x hx
        obtain ⟨⟨j, hj⟩, rfl⟩ := List.mem_iff_get.mp hx
        have hstep := hcond (j + 1) (by simpa using Nat.succ_lt_succ hj) 0
          (Nat.succ_pos j) (by simpa using hp)
        simp only [List.getD_cons_succ] at hstep
        rw [List.getD_eq_getElem rest default hj] at hstep
        simpa [List.get_eq_getElem] using hstep
      have hfm : (p :: rest).filterMap RawPoint.power_hp = [] := by
        rw [List.filterMap_cons_none hp]
        exact List.filterMap_eq_nil.mpr hallnone
      rw [hfm] at hi
      simp at hi

/-- C8 counterexample: a point without a power reading followed by a
point with one: the power array is `[5]`, but the power reading paired
with `flow[0]` is absent, not `5`; the power array aligns with the
points that have readings, not with the flow prefix. -/
theorem C8_counterexample :
    (get_curve_data pointsC8).map CurveData.power = some [5] ∧
      (pointsC8.getD 0 default).power_hp = none ∧
      (none : Option ℚ) ≠ some 5 := by
  refine ⟨by with_unfolding_all rfl, rfl, by simp⟩

/-- C8 (amended): `len(power) <= len(flow)` always holds for
`get_curve_data` output, and the prefix alignment
`power[i] = points[i].power` holds under the additional condition that
every point lacking a power reading comes after every point that has
one. -/
theorem C8_power_alignment (points : List RawPoint) (s : CurveData)
    (h : get_curve_data points = some s) :
    s.power.length ≤ s.flow.length ∧
    ((∀ j, j < points.length → ∀ i, i < j →
        (points.getD i default).power_hp = none →
        (points.getD j default).power_hp = none) →
      ∀ i, i < s.power.length →
        (points.getD i default).power_hp = some (s.power.getD i 0)) := by
  unfold get_curve_data at h
  split_ifs at h with h0
  · simp only [Option.some.injEq] at h
    subst h
    refine ⟨?_, ?_⟩
    · simpa using List.length_filterMap_le RawPoint.power_hp points
    · intro hcond i hi
      exact filterMap_prefix_align points hcond i hi

/-- Witness for the amended C8: with the missing readings forming a
suffix, `power[0]` is the reading of `points[0]`. -/
theorem C8_power_alignment_witness :
    (pointsC8w.getD 0 default).power_hp = some (curveRecC8w.power.getD 0 0) :=
  (C8_power_alignment pointsC8w curveRecC8w
      (by with_unfolding_all rfl)).2 (by decide) 0 (by decide)

/-! ## C6: power-ceiling envelope -/

theorem envLoop_flatten (rt : ℚ → ℚ) (limit : ℚ) :
    ∀ (l : List (ℚ × ℚ × ℚ)) (seg : List (ℚ × ℚ)),
      (envLoop rt limit l seg).flatten =
        seg ++ (l.filter (overLimit limit)).map (deratePoint rt limit) := by
  intro l
  induction l with
  | nil =>
    intro seg
    by_cases hs : seg = [] <;> simp [envLoop, hs]
  | cons t rest ih =>
    intro seg
    by_cases hov : overLimit limit t = true
    · simp only [envLoop, if_pos hov]
      rw [ih, List.filter_cons_of_pos hov]
      simp [List.append_assoc]
    · have hov2 : overLimit limit t = false := by
        simpa using hov
      have hfil : (t :: rest).filter (overLimit limit) =
          rest.filter (overLimit limit) := by
        simp [List.filter_cons, hov2]
      by_cases hs : seg = []
      · subst hs
        simp only [envLoop, hov2, Bool.false_eq_true, if_false, eq_self_iff_true,
          if_true]
        rw [ih [], hfil]
      · simp only [envLoop, hov2, Bool.false_eq_true, if_false, if_neg hs]
        rw [List.flatten_cons, ih [], hfil]
        simp

theorem envLoop_runs_ne_nil (rt : ℚ → ℚ) (limit : ℚ) :
    ∀ (l : List (ℚ × ℚ × ℚ)) (seg : List (ℚ × ℚ)),
      ∀ run ∈ envLoop rt limit l seg, run ≠ [] := by
  intro l
  induction l with
  | nil =>
    intro seg run hrun
    by_cases hs : seg = []
    · simp [envLoop, hs] at hrun
    · simp only [envLoop, if_neg hs, List.mem_singleton] at hrun
      rw [hrun]
      exact hs
  | cons t rest ih =>
    intro seg run hrun
    by_cases hov : overLimit limit t = true
    · simp only [envLoop, if_pos hov] at hrun
      exact ih _ run hrun
    · have hov2 : overLimit limit t = false := by simpa using hov
      by_cases hs : seg = []
      · simp only [envLoop, hov2, Bool.false_eq_true, if_false, if_pos hs] at hrun
        exact ih _ run hrun
      · simp only [envLoop, hov2, Bool.false_eq_true, if_false, if_neg hs,
          List.mem_cons] at hrun
        rcases hrun with hrun | hrun
        · rw [hrun]; exact hs
        · exact ih _ run hrun

theorem splitRuns_ne_nil {α : Type} (ov : α → Bool) :
    ∀ l : List α, splitRuns ov l ≠ [] := by
  intro l
  cases l with
  | nil => simp [splitRuns]
  | cons a rest =>
    by_cases hov : ov a = true
    · rcases hsp : splitRuns ov rest with _ | ⟨c, cs⟩ <;>
        simp [splitRuns, hov, hsp]
    · have hov2 : ov a = false := by simpa using hov
      simp [splitRuns, hov2]

theorem splitRuns_cons_decomp {α : Type} (ov : α → Bool) (l : List α) :
    ∃ c cs, splitRuns ov l = c :: cs := by
  rcases hsp : splitRuns ov l with _ | ⟨c, cs⟩
  · exact absurd hsp (splitRuns_ne_nil ov l)
  · exact ⟨c, cs, rfl⟩

theorem envLoop_eq_splitRuns (rt : ℚ → ℚ) (limit : ℚ) :
    ∀ (l : List (ℚ × ℚ × ℚ)) (seg : List (ℚ × ℚ)),
      envLoop rt limit l seg =
        ((seg ++ ((splitRuns (overLimit limit) l).headD []).map (deratePoint rt limit)) ::
          ((splitRuns (overLimit limit) l).tail).map (List.map (deratePoint rt limit))).filter
          (fun c => !c.isEmpty) := by
  intro l
  induction l with
  | nil =>
    intro seg
    cases seg <;> simp [envLoop, splitRuns, List.filter]
  | cons t rest ih =>
    intro seg
    obtain ⟨c, cs, hsp⟩ := splitRuns_cons_decomp (overLimit limit) rest
    by_cases hov : overLimit limit t = true
    · have hsp2 : splitRuns (overLimit limit) (t :: rest) = (t :: c) :: cs := by
        simp [splitRuns, hov, hsp]
      rw [hsp2]
      simp only [List.headD_cons, List.tail_cons, List.map_cons]
      have hstep : envLoop rt limit (t :: rest) seg =
          envLoop rt limit rest (seg ++ [deratePoint rt limit t]) := by
        simp [envLoop, hov]
      rw [hstep, ih (seg ++ [deratePoint rt limit t]), hsp]
      simp only [List.headD_cons, List.tail_cons]
      congr 2
      simp [List.append_assoc]
    · have hov2 : overLimit limit t = false := by simpa using hov
      have hsp2 : splitRuns (overLimit limit) (t :: rest) =
          [] :: splitRuns (overLimit limit) rest := by
        simp [splitRuns, hov2]
      rw [hsp2]
      simp only [List.headD_cons, List.tail_cons, List.map_nil, List.append_nil]
      by_cases hs : seg = []
      · subst hs
        have hstep : envLoop rt limit (t :: rest) [] = envLoop rt limit rest [] := by
          simp [envLoop, hov2]
        rw [hstep, ih [], hsp]
        simp only [List.headD_cons, List.tail_cons, List.nil_append, List.map_cons]
        by_cases hc : c = [] <;> simp [List.filter_cons, hc]
      · have hstep : envLoop rt limit (t :: rest) seg =
            seg :: envLoop rt limit rest [] := by
          simp [envLoop, hov2, hs]
        rw [hstep, ih [], hsp]
        simp only [List.headD_cons, List.tail_cons, List.nil_append, List.map_cons]
        have hsegne : seg.isEmpty = false := by
          cases seg with
          | nil => exact absurd rfl hs
          | cons x xs => rfl
        by_cases hc : c = [] <;> simp [List.filter_cons, hc, hsegne]

/-- C6 counterexample: a sample with negative head `(q, h, p) = (4, -1, 8)`
at `limit = 1` is over the limit with speed ratio `1/2`, and its derated
point `(2, -1/4)` has head larger than the source head: the emitted
`h' <= h` part of the claim fails for negative heads (reachable, since
the pressure-drop offset can push smoothed heads negative). -/
theorem C6_counterexample :
    powerEnvelope cbrtModel 1 [4] [-1] [8] = [[(2, -1/4)]] ∧
      ¬ ((-1/4 : ℚ) ≤ -1) := by
  constructor
  · with_unfolding_all rfl
  · norm_num

/-- C6 (amended): every emitted envelope point comes from an over-limit
sample `(q, h, p)` as `(r*q, r*r*h)` with `r` the speed-ratio root of
`limit/p`; non-over-limit samples are not emitted and cut the polyline
runs (the runs are exactly the nonempty maximal over-limit chunks); and
the derated point shrinks, `q' <= q` and `h' <= h`, for sources with
nonnegative flow and head. -/
theorem C6_power_envelope (rt : ℚ → ℚ) (limit : ℚ) (flow head power : List ℚ)
    (hlim : 0 < limit) (hrt : ∀ x, 0 < x → x < 1 → 0 ≤ rt x ∧ rt x ≤ 1) :
    ((powerEnvelope rt limit flow head power).flatten =
      ((zip3Q flow head power).filter (overLimit limit)).map (deratePoint rt limit)) ∧
    (∀ run ∈ powerEnvelope rt limit flow head power, run ≠ []) ∧
    (powerEnvelope rt limit flow head power =
      ((splitRuns (overLimit limit) (zip3Q flow head power)).map
        (List.map (deratePoint rt limit))).filter (fun c => !c.isEmpty)) ∧
    (∀ t ∈ zip3Q flow head power, overLimit limit t = true →
      0 ≤ t.1 → 0 ≤ t.2.1 →
      (deratePoint rt limit t).1 ≤ t.1 ∧ (deratePoint rt limit t).2 ≤ t.2.1) := by
  refine ⟨?_, ?_, ?_, ?_⟩
  · unfold powerEnvelope
    rw [envLoop_flatten]
    simp
  · intro run hrun
    exact envLoop_runs_ne_nil rt limit _ [] run hrun
  · unfold powerEnvelope
    rw [envLoop_eq_splitRuns]
    obtain ⟨c, cs, hsp⟩ := splitRuns_cons_decomp (overLimit limit) (zip3Q flow head power)
    rw [hsp]
    simp only [List.headD_cons, List.tail_cons, List.nil_append, List.map_cons]
  · rintro ⟨q, h, p⟩ _ hov hq hh
    have hov2 : limit < p ∧ 0 < p := by simpa [overLimit] using hov
    have hx1 : 0 < limit / p := div_pos hlim hov2.2
    have hx2 : limit / p < 1 := (div_lt_one hov2.2).mpr hov2.1
    obtain ⟨hr0, hr1⟩ := hrt _ hx1 hx2
    constructor
    · calc rt (limit / p) * q ≤ 1 * q :=
          mul_le_mul_of_nonneg_right hr1 hq
        _ = q := one_mul q
    · have hrr : rt (limit / p) * rt (limit / p) ≤ 1 := mul_le_one₀ hr1 hr0 hr1
      calc rt (limit / p) * rt (limit / p) * h ≤ 1 * h :=
          mul_le_mul_of_nonneg_right hrr hh
        _ = h := one_mul h

/-- Bounds for the cube-root model on `(0, 1)`. -/
theorem cbrtModel_bounds : ∀ x : ℚ, 0 < x → x < 1 → 0 ≤ cbrtModel x ∧ cbrtModel x ≤ 1 := by
  intro x hx0 hx1
  unfold cbrtModel
  split_ifs with i1 i2 i3
  · norm_num
  · norm_num
  · constructor <;> linarith
  · linarith

/-- Witness for the amended C6: the over-limit sample `(4, 3, 8)` at
`limit = 1` derates to a point below it in both coordinates. -/
theorem C6_power_envelope_witness :
    (deratePoint cbrtModel 1 (4, 3, 8)).1 ≤ 4 ∧
      (deratePoint cbrtModel 1 (4, 3, 8)).2 ≤ 3 :=
  (C6_power_envelope cbrtModel 1 [4] [3] [8] (by norm_num) cbrtModel_bounds).2.2.2
    (4, 3, 8) (by decide) (by decide) (by norm_num) (by norm_num)

/-! ## C9: reduced-speed overlay -/

theorem rsLoop_runs_eq_envLoop (rt : ℚ → ℚ) (limit : ℚ) :
    ∀ (l : List (ℚ × ℚ × ℚ)) (seg : List (ℚ × ℚ)) (tl : Option (ℚ × ℚ × ℚ)),
      (rsLoop rt limit l seg tl).1 = envLoop rt limit l seg := by
  intro l
  induction l with
  | nil =>
    intro seg tl
    rfl
  | cons t rest ih =>
    intro seg tl
    by_cases hov : overLimit limit t = true
    · simp only [rsLoop, envLoop, if_pos hov]
      exact ih _ _
    · have hov2 : overLimit limit t = false := by simpa using hov
      by_cases hs : seg = []
      · simp only [rsLoop, envLoop, hov2, Bool.false_eq_true, if_false, if_pos hs]
        exact ih _ _
      · simp only [rsLoop, envLoop, hov2, Bool.false_eq_true, if_false, if_neg hs]
        rw [ih]

theorem rsLoop_tail (rt : ℚ → ℚ) (limit : ℚ) :
    ∀ (l : List (ℚ × ℚ × ℚ)) (seg : List (ℚ × ℚ)) (tl : Option (ℚ × ℚ × ℚ)),
      (rsLoop rt limit l seg tl).2 =
        (((l.filter (overLimit limit)).map (derateTriple rt limit)).getLast?).or tl := by
  intro l
  induction l with
  | nil =>
    intro seg tl
    simp [rsLoop]
  | cons t rest ih =>
    intro seg tl
    by_cases hov : overLimit limit t = true
    · simp only [rsLoop, if_pos hov]
      rw [ih]
      rw [List.filter_cons_of_pos hov, List.map_cons]
      rcases hgl : ((rest.filter (overLimit limit)).map (derateTriple rt limit)).getLast?
        with _ | x
      · have hnil2 : (rest.filter (overLimit limit)).map (derateTriple rt limit) = [] :=
          List.getLast?_eq_none.mp hgl
        rw [hnil2]
        rfl
      · have hsplit : derateTriple rt limit t ::
            (rest.filter (overLimit limit)).map (derateTriple rt limit) =
            [derateTriple rt limit t] ++
              (rest.filter (overLimit limit)).map (derateTriple rt limit) := rfl
        rw [hsplit, List.getLast?_append, hgl]
        rfl
    · have hov2 : overLimit limit t = false := by simpa using hov
      have hfil : (t :: rest).filter (overLimit limit) =
          rest.filter (overLimit limit) := by
        simp [List.filter_cons, hov2]
      by_cases hs : seg = []
      · simp only [rsLoop, hov2, Bool.false_eq_true, if_false, if_pos hs]
        rw [ih, hfil]
      · simp only [rsLoop, hov2, Bool.false_eq_true, if_false, if_neg hs]
        rw [ih, hfil]

set_option maxRecDepth 2000 in
/-- C9 counterexample: at `limit = 1` with samples `(10, 1, 4)` and
`(11, 1, 16)` the final (single) run is `[(5, 1/4), (11/4, 1/16)]` and
the tracked tail is its last point `(11/4, 1/16)` with ratio `1/4`; the
run's first point has flow `5 > 11/4`, so the tail is not the
highest-flow point of the run. -/
theorem C9_counterexample :
    reducedSpeed sqrtModel 1 [10, 11] [1, 1] [4, 16] =
      ([[(5, 1/4), (11/4, 1/16)]], some (11/4, 1/16, 1/4)) ∧
      ¬ ((5 : ℚ) ≤ 11/4) := by
  constructor
  · with_unfolding_all rfl
  · norm_num

set_option maxHeartbeats 2000000 in
/-- C9 (amended): the reduced-speed overlay segments runs exactly like
the envelope loop; its derated points are `(r*q, r*r*h)` with
`r = rt2 (limit/p)` for the square-root ratio model `rt2`; the tracked
tail is the last derated over-limit sample, equivalently the last point
of the final run (not necessarily the highest-flow point); the
annotation carries `min_frequency = standard_frequency(rpm) * r_tail`
and `speed_fraction = r_tail`; and `_get_standard_frequency` returns 60
or 50, picking the frequency of any strictly nearest standard speed. -/
theorem C9_reduced_speed (rt : ℚ → ℚ) (limit : ℚ)
    (flow head power : List ℚ) (rpm : ℤ) :
    ((reducedSpeed rt limit flow head power).1 =
      powerEnvelope rt limit flow head power) ∧
    ((reducedSpeed rt limit flow head power).1.flatten =
      ((zip3Q flow head power).filter (overLimit limit)).map (deratePoint rt limit)) ∧
    ((reducedSpeed rt limit flow head power).2 =
      (((zip3Q flow head power).filter (overLimit limit)).map
        (derateTriple rt limit)).getLast?) ∧
    ((reducedSpeed rt limit flow head power).2.map (fun t => (t.1, t.2.1)) =
      ((reducedSpeed rt limit flow head power).1.flatten).getLast?) ∧
    (rsAnnotationVal rt limit rpm flow head power =
      (reducedSpeed rt limit flow head power).2.map
        (fun t => (t.1, t.2.1, get_standard_frequency rpm * t.2.2, t.2.2))) ∧
    (get_standard_frequency rpm = 60 ∨ get_standard_frequency rpm = 50) ∧
    (∀ s fq, (s, fq) ∈ rpmTable →
      (∀ s2 fq2, (s2, fq2) ∈ rpmTable → (s2, fq2) ≠ (s, fq) →
        (s - rpm).natAbs < (s2 - rpm).natAbs) →
      get_standard_frequency rpm = fq) := by
  have hruns : (reducedSpeed rt limit flow head power).1 =
      powerEnvelope rt limit flow head power := by
    unfold reducedSpeed powerEnvelope
    exact rsLoop_runs_eq_envLoop rt limit _ [] none
  have htail : (reducedSpeed rt limit flow head power).2 =
      (((zip3Q flow head power).filter (overLimit limit)).map
        (derateTriple rt limit)).getLast? := by
    unfold reducedSpeed
    rw [rsLoop_tail]
    simp
  refine ⟨hruns, ?_, htail, ?_, ?_, ?_, ?_⟩
  · rw [hruns]
    unfold powerEnvelope
    rw [envLoop_flatten]
    simp
  · rw [hruns, htail]
    unfold powerEnvelope
    rw [envLoop_flatten]
    simp only [List.nil_append, List.getLast?_map]
    rw [Option.map_map]
    congr 1
  · rfl
  · simp only [get_standard_frequency, rpmTable, pyMinBy, List.tail_cons,
      List.headD_cons]
    split_ifs <;> simp
  · intro s fq hmem hstrict
    fin_cases hmem
    · have h1 := hstrict 2900 50 (by decide) (by decide)
      have h2 := hstrict 1760 60 (by decide) (by decide)
      have h3 := hstrict 1500 50 (by decide) (by decide)
      have h4 := hstrict 1160 60 (by decide) (by decide)
      have h5 := hstrict 950 50 (by decide) (by decide)
      simp only [get_standard_frequency, rpmTable, pyMinBy, List.tail_cons,
        List.headD_cons]
      split_ifs <;> first | rfl | (exfalso; omega)
    · have h1 := hstrict 3500 60 (by decide) (by decide)
      have h2 := hstrict 1760 60 (by decide) (by decide)
      have h3 := hstrict 1500 50 (by decide) (by decide)
      have h4 := hstrict 1160 60 (by decide) (by decide)
      have h5 := hstrict 950 50 (by decide) (by decide)
      simp only [get_standard_frequency, rpmTable, pyMinBy, List.tail_cons,
        List.headD_cons]
      split_ifs <;> first | rfl | (exfalso; omega)
    · have h1 := hstrict 3500 60 (by decide) (by decide)
      have h2 := hstrict 2900 50 (by decide) (by decide)
      have h3 := hstrict 1500 50 (by decide) (by decide)
      have h4 := hstrict 1160 60 (by decide) (by decide)
      have h5 := hstrict 950 50 (by decide) (by decide)
      simp only [get_standard_frequency, rpmTable, pyMinBy, List.tail_cons,
        List.headD_cons]
      split_ifs <;> first | rfl | (exfalso; omega)
    · have h1 := hstrict 3500 60 (by decide) (by decide)
      have h2 := hstrict 2900 50 (by decide) (by decide)
      have h3 := hstrict 1760 60 (by decide) (by decide)
      have h4 := hstrict 1160 60 (by decide) (by decide)
      have h5 := hstrict 950 50 (by decide) (by decide)
      simp only [get_standard_frequency, rpmTable, pyMinBy, List.tail_cons,
        List.headD_cons]
      split_ifs <;> first | rfl | (exfalso; omega)
    · have h1 := hstrict 3500 60 (by decide) (by decide)
      have h2 := hstrict 2900 50 (by decide) (by decide)
      have h3 := hstrict 1760 60 (by decide) (by decide)
      have h4 := hstrict 1500 50 (by decide) (by decide)
      have h5 := hstrict 950 50 (by decide) (by decide)
      simp only [get_standard_frequency, rpmTable, pyMinBy, List.tail_cons,
        List.headD_cons]
      split_ifs <;> first | rfl | (exfalso; omega)
    · have h1 := hstrict 3500 60 (by decide) (by decide)
      have h2 := hstrict 2900 50 (by decide) (by decide)
      have h3 := hstrict 1760 60 (by decide) (by decide)
      have h4 := hstrict 1500 50 (by decide) (by decide)
      have h5 := hstrict 1160 60 (by decide) (by decide)
      simp only [get_standard_frequency, rpmTable, pyMinBy, List.tail_cons,
        List.headD_cons]
      split_ifs <;> first | rfl | (exfalso; omega)

/-- Witness for the amended C9: at rpm 1750 the strictly nearest
standard speed is 1760, so the standard frequency is 60 Hz. -/
theorem C9_reduced_speed_witness : get_standard_frequency 1750 = 60 :=
  (C9_reduced_speed sqrtModel 1 [2] [5] [4] 1750).2.2.2.2.2.2 1760 60
    (by simp [rpmTable])
    (by
      intro s2 fq2 hmem2 hne
      fin_cases hmem2 <;> first | (exact absurd rfl hne) | decide)

/-! ## C2: the parabola-intersection solver -/

theorem linspace_length (a b : ℚ) (n : ℕ) : (linspace a b n).length = n := by
  unfold linspace
  rw [List.length_map, List.length_range]

theorem linspace_getD (a b : ℚ) (n i : ℕ) (h : i < n) :
    (linspace a b n).getD i 0 = a + (b - a) * (i : ℚ) / ((n - 1 : ℕ) : ℚ) := by
  unfold linspace
  rw [List.getD_eq_getElem _ _ (by simpa using h)]
  simp

theorem linspace_getD_le (a b : ℚ) (n i : ℕ) (hab : a ≤ b) (h : i + 1 < n) :
    (linspace a b n).getD i 0 ≤ (linspace a b n).getD (i + 1) 0 := by
  rw [linspace_getD a b n i (by omega), linspace_getD a b n (i + 1) h]
  have hba : (0 : ℚ) ≤ b - a := by linarith
  have hc : (0 : ℚ) ≤ ((n - 1 : ℕ) : ℚ) := Nat.cast_nonneg _
  rcases eq_or_lt_of_le hc with hc0 | hcpos
  · rw [← hc0]
    simp
  · apply add_le_add_left
    apply (div_le_div_right hcpos).mpr
    apply mul_le_mul_of_nonneg_left _ hba
    push_cast
    linarith

theorem firstSignIdx_none_iff :
    ∀ rs : List ERat,
      firstSignIdx rs = none ↔
        ∀ j, j + 1 < rs.length →
          ERat.leb (ERat.mul (rs.getD j ERat.nan) (rs.getD (j + 1) ERat.nan))
            (ERat.fin 0) = false := by
  intro rs
  induction rs with
  | nil =>
    constructor
    · intro _ j hj
      simp at hj
    · intro _
      rfl
  | cons r1 rs2 ih =>
    cases rs2 with
    | nil =>
      constructor
      · intro _ j hj
        simp at hj
      · intro _
        rfl
    | cons r2 rest =>
      by_cases hsc : ERat.leb (ERat.mul r1 r2) (ERat.fin 0) = true
      · apply iff_of_false
        · simp [firstSignIdx, hsc]
        · intro hall
          have h0 := hall 0 (by simp)
          simp only [List.getD_cons_zero, List.getD_cons_succ] at h0
          rw [h0] at hsc
          exact Bool.noConfusion hsc
      · have hsc2 : ERat.leb (ERat.mul r1 r2) (ERat.fin 0) = false := by
          simpa using hsc
        constructor
        · intro hnone j hj
          cases j with
          | zero =>
            simpa using hsc2
          | succ j2 =>
            simp only [firstSignIdx, hsc2, Bool.false_eq_true, if_false,
              Option.map_eq_none'] at hnone
            have := (ih.mp hnone) j2 (by simpa using Nat.lt_of_succ_lt_succ hj)
            simpa using this
        · intro hall
          simp only [firstSignIdx, hsc2, Bool.false_eq_true, if_false,
            Option.map_eq_none']
          apply ih.mpr
          intro j hj
          have := hall (j + 1) (by simpa using Nat.succ_lt_succ hj)
          simpa using this

theorem firstSignIdx_some :
    ∀ (rs : List ERat) (i : ℕ), firstSignIdx rs = some i →
      i + 1 < rs.length ∧
      ERat.leb (ERat.mul (rs.getD i ERat.nan) (rs.getD (i + 1) ERat.nan))
        (ERat.fin 0) = true ∧
      ∀ j, j < i →
        ERat.leb (ERat.mul (rs.getD j ERat.nan) (rs.getD (j + 1) ERat.nan))
          (ERat.fin 0) = false := by
  intro rs
  induction rs with
  | nil =>
    intro i hi
    exact absurd hi (by simp [firstSignIdx])
  | cons r1 rs2 ih =>
    cases rs2 with
    | nil =>
      intro i hi
      exact absurd hi (by simp [firstSignIdx])
    | cons r2 rest =>
      intro i hi
      by_cases hsc : ERat.leb (ERat.mul r1 r2) (ERat.fin 0) = true
      · simp only [firstSignIdx, hsc, if_true, Option.some.injEq] at hi
        subst hi
        refine ⟨by simp, by simpa using hsc, ?_⟩
        intro j hj
        exact absurd hj (Nat.not_lt_zero j)
      · have hsc2 : ERat.leb (ERat.mul r1 r2) (ERat.fin 0) = false := by
          simpa using hsc
        simp only [firstSignIdx, hsc2, Bool.false_eq_true, if_false,
          Option.map_eq_some'] at hi
        obtain ⟨i2, hfs, hi2⟩ := hi
        obtain ⟨hb, hcond, hmin⟩ := ih i2 hfs
        subst hi2
        refine ⟨by simpa using Nat.succ_lt_succ hb, by simpa using hcond, ?_⟩
        intro j hj
        cases j with
        | zero =>
          simpa using hsc2
        | succ j2 =>
          have := hmin j2 (Nat.lt_of_succ_lt_succ hj)
          simpa using this

theorem scanPairs_eq (rf : (ℚ → ERat) → ℚ → ℚ → ℚ) (resid : ℚ → ERat)
    (ci : ℚ → ℚ) :
    ∀ l : List ℚ,
      scanPairs rf resid ci l = (firstSignIdx (l.map resid)).map
        (fun i => (rf resid (l.getD i 0) (l.getD (i + 1) 0),
          ci (rf resid (l.getD i 0) (l.getD (i + 1) 0)))) := by
  intro l
  induction l with
  | nil => rfl
  | cons t1 l2 ih =>
    cases l2 with
    | nil => rfl
    | cons t2 rest =>
      by_cases hsc : ERat.leb (ERat.mul (resid t1) (resid t2)) (ERat.fin 0) = true
      · simp [scanPairs, firstSignIdx, hsc]
      · have hsc2 : ERat.leb (ERat.mul (resid t1) (resid t2)) (ERat.fin 0) = false := by
          simpa using hsc
        have hstep : scanPairs rf resid ci (t1 :: t2 :: rest) =
            scanPairs rf resid ci (t2 :: rest) := by
          simp [scanPairs, hsc2]
        rw [hstep, ih]
        simp only [List.map_cons, firstSignIdx, hsc2, Bool.false_eq_true, if_false]
        rcases hfs : firstSignIdx (resid t2 :: rest.map resid) with _ | i
        · rfl
        · simp only [Option.map_some', List.getD_cons_succ]

/-- C2 counterexample: a target curve with two samples at the same flow
value makes the `interp1d` constructor raise, so
`find_parabola_intersection` faults instead of scanning and returning a
value. -/
theorem C2_counterexample :
    find_parabola_intersection brentqModel [1, 1] [2, 3] (ERat.fin 0) =
      Except.error () := by
  with_unfolding_all rfl

/-- Bracket guarantee of the concrete root-finder model. -/
theorem brentqModel_bracket :
    ∀ (g : ℚ → ERat) (a b : ℚ), a ≤ b →
      a ≤ brentqModel g a b ∧ brentqModel g a b ≤ b := by
  intro g a b hab
  unfold brentqModel
  split_ifs <;> constructor <;> linarith

/-- C2 (amended): when the interpolant constructor succeeds (at least
two samples with distinct flows), `find_parabola_intersection` returns
value-level: its 50 sample points span exactly
`[min(flow), max(flow) * 1.05]`; it returns the no-intersection value
exactly when no consecutive residual pair has product `<= 0` in IEEE
comparison; and on success the returned point is a bracketed root of
the first sign-change interval paired with the interpolant value
there. -/
theorem C2_solver_scan (rf : (ℚ → ERat) → ℚ → ℚ → ℚ)
    (flow_arr head_arr : List ℚ) (k : ERat)
    (hok : interp1dOk flow_arr = true)
    (hrf : ∀ (g : ℚ → ERat) (a b : ℚ), a ≤ b → a ≤ rf g a b ∧ rf g a b ≤ b)
    (hdom : pyMin flow_arr ≤ pyMax flow_arr * (21 / 20)) :
    (find_parabola_intersection rf flow_arr head_arr k =
      Except.ok (fpiCore rf flow_arr head_arr k)) ∧
    ((fpiPts flow_arr).length = 50 ∧
      (fpiPts flow_arr).getD 0 0 = pyMin flow_arr ∧
      (fpiPts flow_arr).getD 49 0 = pyMax flow_arr * (21 / 20)) ∧
    (fpiCore rf flow_arr head_arr k = none ↔
      firstSignIdx (fpiResid flow_arr head_arr k) = none) ∧
    (firstSignIdx (fpiResid flow_arr head_arr k) = none ↔
      ∀ j, j + 1 < 50 →
        ERat.leb (ERat.mul ((fpiResid flow_arr head_arr k).getD j ERat.nan)
          ((fpiResid flow_arr head_arr k).getD (j + 1) ERat.nan))
          (ERat.fin 0) = false) ∧
    (∀ q hv, fpiCore rf flow_arr head_arr k = some (q, hv) →
      ∃ i, firstSignIdx (fpiResid flow_arr head_arr k) = some i ∧
        (fpiPts flow_arr).getD i 0 ≤ q ∧ q ≤ (fpiPts flow_arr).getD (i + 1) 0 ∧
        hv = interp1dEval flow_arr head_arr q ∧
        (∀ j, j < i →
          ERat.leb (ERat.mul ((fpiResid flow_arr head_arr k).getD j ERat.nan)
            ((fpiResid flow_arr head_arr k).getD (j + 1) ERat.nan))
            (ERat.fin 0) = false)) ∧
    (k = ERat.inf → ∀ q : ℚ,
      residualFun (interp1dEval flow_arr head_arr) ERat.inf q =
        if q = 0 then ERat.fin 0 else ERat.fin (interp1dEval flow_arr head_arr q)) := by
  have hlenpts : (fpiPts flow_arr).length = 50 := by
    unfold fpiPts
    exact linspace_length _ _ 50
  have hlenrs : (fpiResid flow_arr head_arr k).length = 50 := by
    unfold fpiResid
    rw [List.length_map]
    exact hlenpts
  have hfpiResid : (fpiPts flow_arr).map
      (residualFun (interp1dEval flow_arr head_arr) k) =
      fpiResid flow_arr head_arr k := rfl
  refine ⟨?_, ⟨hlenpts, ?_, ?_⟩, ?_, ?_, ?_, ?_⟩
  · unfold find_parabola_intersection
    rw [if_pos hok]
  · unfold fpiPts
    rw [linspace_getD _ _ 50 0 (by omega)]
    simp
  · unfold fpiPts
    rw [linspace_getD _ _ 50 49 (by omega)]
    norm_num
  · unfold fpiCore
    rw [scanPairs_eq, hfpiResid]
    exact Option.map_eq_none'
  · rw [firstSignIdx_none_iff, hlenrs]
  · intro q hv hsome
    unfold fpiCore at hsome
    rw [scanPairs_eq, hfpiResid] at hsome
    obtain ⟨i, hfs, heq⟩ := Option.map_eq_some'.mp hsome
    obtain ⟨hb, -, hmin⟩ := firstSignIdx_some _ i hfs
    rw [hlenrs] at hb
    have hle : (fpiPts flow_arr).getD i 0 ≤ (fpiPts flow_arr).getD (i + 1) 0 := by
      unfold fpiPts
      exact linspace_getD_le _ _ 50 i hdom (by omega)
    obtain ⟨hq1, hq2⟩ := hrf (residualFun (interp1dEval flow_arr head_arr) k)
      ((fpiPts flow_arr).getD i 0) ((fpiPts flow_arr).getD (i + 1) 0) hle
    simp only [Prod.mk.injEq] at heq
    refine ⟨i, hfs, ?_, ?_, ?_, hmin⟩
    · rw [heq.1] at hq1
      exact hq1
    · rw [heq.1] at hq2
      exact hq2
    · rw [← heq.1, heq.2]
  · intro hk q
    simp [residualFun]

/-- Witness for the amended C2 at a concrete two-point curve. -/
theorem C2_solver_scan_witness :
    find_parabola_intersection brentqModel [0, 100] [60, 50] (ERat.fin (1/40)) =
      Except.ok (fpiCore brentqModel [0, 100] [60, 50] (ERat.fin (1/40))) :=
  (C2_solver_scan brentqModel [0, 100] [60, 50] (ERat.fin (1/40)) (by decide)
    brentqModel_bracket (by with_unfolding_all decide)).1
